import Mathlib

/-!
Shallow embedding of wrapper/utils/GitUtils.py: a thin wrapper around the
GitPython SDK exposing branch inspection, up-to-date checks, pull-based
updates and checkout for one local repository.

The private fields of the Python class become the fields of the `GitUtils`
structure.  Python exceptions (AttributeError on a None dereference,
IndexError on a failed keyed lookup) become `Except GitErr`.  Network
activity of the SDK (fetch, pull) and filesystem mutation of a checkout are
recorded in an explicit effect list so that the theorems can speak about the
absence of network access and about pull counts.  The commit graph of the
underlying repository is a finite DAG on natural-number commit ids whose
parent ids are strictly smaller than the child id (the well-formedness
predicate `parentsWF`); the SDK primitive is_ancestor is embedded as a
fuel-bounded reachability check along parent links.
-/

/-- Exceptions of the embedded Python code: dereferencing a None handle
raises AttributeError, a failed keyed lookup raises IndexError. -/
inductive GitErr where
  | attributeError
  | indexError
  deriving DecidableEq, Repr

/-- Observable side effects of the SDK calls: a network fetch, a network
pull, and the filesystem mutation of a branch checkout. -/
inductive Eff where
  | fetch
  | pull
  | checkoutFs
  deriving DecidableEq, Repr

/-- One branch on the remote side, as the fetch protocol reports it:
its name, the commit id at its tip, and the raw fetch flag bits. -/
structure RemoteBranch where
  name : String
  commit : Nat
  flags : Nat
  deriving DecidableEq, Repr

/-- The RemoteHandle of the spec: the remote named origin with the branches
a fetch from it reports. -/
structure Remote where
  name : String
  branches : List RemoteBranch
  deriving DecidableEq, Repr

/-- The FetchInfo object of the SDK for one fetched ref: its ref name
(remote name, a slash, then the branch name), the fetched commit and the
flag bits.  Only these fields are read by the wrapper. -/
structure FetchInfo where
  name : String
  commit : Nat
  flags : Nat
  deriving DecidableEq, Repr

/-- The RepositoryHandle of the spec: local branch heads, the currently
checked-out branch, the dirty bit reported by is_dirty, the parent links of
the commit graph, and the configured remotes. -/
structure Repo where
  heads : List (String × Nat)
  activeBranch : String
  dirty : Bool
  parents : Nat → List Nat
  remotes : List Remote

/-- Commit graphs are well formed when every parent id is strictly smaller
than the child id; this makes the graph acyclic. -/
def parentsWF (parents : Nat → List Nat) : Prop :=
  ∀ n p, p ∈ parents n → p < n

/-- Fuel-bounded reachability along parent links: does following parent
links from b reach a within the given fuel. -/
def isAncestorAux (parents : Nat → List Nat) : Nat → Nat → Nat → Bool
  | 0, a, b => a == b
  | fuel + 1, a, b => a == b || (parents b).any (fun p => isAncestorAux parents fuel a p)

/-- The SDK primitive is_ancestor: commit a is an ancestor of commit b.
On a well-formed graph fuel b is enough, since ids strictly decrease along
parent links. -/
def Repo.is_ancestor (r : Repo) (a b : Nat) : Bool :=
  isAncestorAux r.parents b a b

/-- The fetch call of the SDK on a remote: one FetchInfo per remote branch,
named by the remote name, a slash, and the branch name. -/
def Remote.fetch (rem : Remote) : List FetchInfo :=
  rem.branches.map (fun b => ⟨rem.name ++ "/" ++ b.name, b.commit, b.flags⟩)

/-- The pull call of the SDK: fast-forward the currently checked-out branch
of the repository to the remote tip of the branch with the same name. -/
def Remote.pullInto (rem : Remote) (repo : Repo) : Repo :=
  match rem.branches.find? (fun b => b.name == repo.activeBranch) with
  | some b =>
      { repo with
        heads := repo.heads.map (fun p => if p.1 == repo.activeBranch then (p.1, b.commit) else p) }
  | none => repo

/-- Keyed lookup into the remotes list, as remotes of the SDK indexes by
name. -/
def findRemote (rs : List Remote) (n : String) : Option Remote :=
  rs.find? (fun r => r.name == n)

/-- Keyed lookup of a branch head by name; a missing name raises
IndexError, as heads of the SDK does. -/
def lookupHead (heads : List (String × Nat)) (b : String) : Except GitErr Nat :=
  match heads.find? (fun p => p.1 == b) with
  | some p => Except.ok p.2
  | none => Except.error GitErr.indexError

/-- Keyed lookup of a fetch result by ref name; a missing key raises
IndexError, as the fetch result list of the SDK does. -/
def lookupFetch (fr : List FetchInfo) (key : String) : Except GitErr FetchInfo :=
  match fr.find? (fun fi => fi.name == key) with
  | some fi => Except.ok fi
  | none => Except.error GitErr.indexError

/-- Splitting a character list at every occurrence of the separator, the
semantics of the Python split method on a one-character separator. -/
def splitChars (sep : Char) : List Char → List (List Char)
  | [] => [[]]
  | c :: rest =>
      match splitChars sep rest with
      | [] => if c = sep then [[], [c]] else [[c]]
      | grp :: grps => if c = sep then [] :: grp :: grps else (c :: grp) :: grps

/-- The Python split method of str on a one-character separator. -/
def pySplit (sep : Char) (s : String) : List String :=
  (splitChars sep s.data).map (fun l => String.mk l)

/-- The Python expression name.split on the slash character, indexed at 1;
an out-of-range index raises IndexError. -/
def splitSecond (s : String) : Except GitErr String :=
  match (pySplit '/' s)[1]? with
  | some x => Except.ok x
  | none => Except.error GitErr.indexError

/-- The three private fields of the GitUtils class: the optional repository
handle, the optional remote handle, and the last stored fetch info. -/
structure GitUtils where
  gitRepo : Option Repo
  gitRemote : Option Remote
  fetchBranchInfo : Option FetchInfo

/-- The constructor of GitUtils.  The argument models the outcome of
opening the configured path: none when the SDK raises
InvalidGitRepositoryError (caught, leaving the degraded all-None state),
some repo on success.  With at least one remote configured the remote named
origin is selected by keyed lookup, which raises IndexError when absent. -/
def GitUtils.init (repoAtPath : Option Repo) : Except GitErr GitUtils :=
  match repoAtPath with
  | none => Except.ok ⟨none, none, none⟩
  | some repo =>
      if repo.remotes.length > 0 then
        match findRemote repo.remotes "origin" with
        | some rem => Except.ok ⟨some repo, some rem, none⟩
        | none => Except.error GitErr.indexError
      else
        Except.ok ⟨some repo, none, none⟩

/-- getCurrentBranch: the name of the active branch; dereferences the
repository handle, so a degraded controller raises AttributeError. -/
def GitUtils.getCurrentBranch (g : GitUtils) : Except GitErr String :=
  match g.gitRepo with
  | none => Except.error GitErr.attributeError
  | some repo => Except.ok repo.activeBranch

/-- The loop body of listBranch over the fetched refs: each ref name split
on slashes and indexed at 1, stopping at the first failure. -/
def splitAll : List FetchInfo → Except GitErr (List String)
  | [] => Except.ok []
  | fi :: rest =>
      match splitSecond fi.name with
      | Except.error e => Except.error e
      | Except.ok s =>
          match splitAll rest with
          | Except.error e => Except.error e
          | Except.ok ss => Except.ok (s :: ss)

/-- listBranch: with no remote handle the empty list is returned without
touching the network; otherwise the remote is fetched and each ref name is
split on slashes, keeping the component at index 1. -/
def GitUtils.listBranch (g : GitUtils) : Except GitErr (List String × GitUtils × List Eff) :=
  match g.gitRemote with
  | none => Except.ok ([], g, [])
  | some rem =>
      match splitAll rem.fetch with
      | Except.error e => Except.error e
      | Except.ok result => Except.ok (result, g, [Eff.fetch])

/-- safeCheck: false when no repository handle is loaded, otherwise the
negation of the dirty bit.  The Python method only reads is_dirty and logs,
so the embedding is a pure function of the state. -/
def GitUtils.safeCheck (g : GitUtils) : Bool :=
  match g.gitRepo with
  | none => false
  | some repo => !repo.dirty

/-- isUpToDate: resolve the branch name (the active branch when the
argument is none), read the local head commit, fetch the remote, look up
the fetch info keyed by remote name, slash, branch name, store it in the
fetchBranchInfo field, and return whether the fetched remote commit is an
ancestor of the local head commit.  Both handle dereferences raise
AttributeError when the handle is None. -/
def GitUtils.isUpToDate (g : GitUtils) (branch : Option String) :
    Except GitErr (Bool × GitUtils × List Eff) :=
  match (match branch with
         | none => g.getCurrentBranch
         | some b => Except.ok b) with
  | Except.error e => Except.error e
  | Except.ok branchName =>
      match g.gitRepo with
      | none => Except.error GitErr.attributeError
      | some repo =>
          match lookupHead repo.heads branchName with
          | Except.error e => Except.error e
          | Except.ok current_commit =>
              match g.gitRemote with
              | none => Except.error GitErr.attributeError
              | some rem =>
                  match lookupFetch rem.fetch (rem.name ++ "/" ++ branchName) with
                  | Except.error e => Except.error e
                  | Except.ok fi =>
                      Except.ok (repo.is_ancestor fi.commit current_commit,
                        { g with fetchBranchInfo := some fi }, [Eff.fetch])

/-- update: return false when the safety check fails; otherwise run the
up-to-date check (propagating its exceptions) and return false when already
up to date; otherwise, with a remote handle present, pull the current
branch and return true; with no remote handle return false. -/
def GitUtils.update (g : GitUtils) : Except GitErr (Bool × GitUtils × List Eff) :=
  if !g.safeCheck then Except.ok (false, g, [])
  else
    match g.isUpToDate none with
    | Except.error e => Except.error e
    | Except.ok (upToDate, g1, effs) =>
        if upToDate then Except.ok (false, g1, effs)
        else
          match g1.gitRemote with
          | some rem =>
              match g1.gitRepo with
              | some repo =>
                  Except.ok (true,
                    { g1 with gitRepo := some (rem.pullInto repo) }, effs ++ [Eff.pull])
              | none => Except.error GitErr.attributeError
          | none => Except.ok (false, g1, effs)

/-- checkout: return false when the safety check fails; return false when
the requested branch is already the current branch; otherwise look up the
local head of that name (IndexError when absent) and switch the working
tree to it, returning true. -/
def GitUtils.checkout (g : GitUtils) (branch : String) :
    Except GitErr (Bool × GitUtils × List Eff) :=
  if !g.safeCheck then Except.ok (false, g, [])
  else
    match g.getCurrentBranch with
    | Except.error e => Except.error e
    | Except.ok current =>
        if branch == current then Except.ok (false, g, [])
        else
          match g.gitRepo with
          | none => Except.error GitErr.attributeError
          | some repo =>
              match repo.heads.find? (fun p => p.1 == branch) with
              | none => Except.error GitErr.indexError
              | some _ =>
                  Except.ok (true,
                    { g with gitRepo := some { repo with activeBranch := branch } },
                    [Eff.checkoutFs])

/-- Projection dropping the controller state from an operation result,
keeping the returned value and the effect list. -/
def dropState {α : Type} : Except GitErr (α × GitUtils × List Eff) → Except GitErr (α × List Eff)
  | Except.error e => Except.error e
  | Except.ok (a, _, effs) => Except.ok (a, effs)

/-! Ancestry lemmas for the commit-graph model. -/

/-- On a well-formed commit graph, reachability along parent links only
reaches ids that are at most the starting id. -/
theorem isAncestorAux_le (parents : Nat → List Nat) (hwf : parentsWF parents) :
    ∀ fuel a b, isAncestorAux parents fuel a b = true → a ≤ b := by
  intro fuel
  induction fuel with
  | zero =>
      intro a b h
      simp [isAncestorAux] at h
      omega
  | succ f ih =>
      intro a b h
      simp [isAncestorAux] at h
      rcases h with h | ⟨p, hp, h⟩
      · omega
      · exact le_trans (ih a p h) (Nat.le_of_lt (hwf b p hp))

/-- On a well-formed graph, ancestry respects the id order. -/
theorem is_ancestor_le (r : Repo) (hwf : parentsWF r.parents) (a b : Nat)
    (h : r.is_ancestor a b = true) : a ≤ b :=
  isAncestorAux_le r.parents hwf b a b h

/-- On a well-formed graph a strict descendant of a commit is never an
ancestor of it. -/
theorem strict_descendant_not_ancestor (r : Repo) (hwf : parentsWF r.parents)
    (a b : Nat) (hab : r.is_ancestor a b = true) (hne : a ≠ b) :
    r.is_ancestor b a = false := by
  cases hba : r.is_ancestor b a with
  | false => rfl
  | true =>
      exact (hne (Nat.le_antisymm (is_ancestor_le r hwf a b hab)
        (is_ancestor_le r hwf b a hba))).elim

/-- Computation lemma for isUpToDate: with a loaded repository, a remote
handle, a resolvable branch name, a present local head and a present fetch
entry, the call fetches once, stores the fetch info, and returns the
ancestry test of the fetched commit against the local head commit. -/
theorem isUpToDate_eq (g : GitUtils) (repo : Repo) (rem : Remote)
    (branchArg : Option String) (bn : String) (cc : Nat) (fi : FetchInfo)
    (hrepo : g.gitRepo = some repo) (hrem : g.gitRemote = some rem)
    (hbn : branchArg = some bn ∨ (branchArg = none ∧ repo.activeBranch = bn))
    (hh : lookupHead repo.heads bn = Except.ok cc)
    (hf : lookupFetch rem.fetch (rem.name ++ "/" ++ bn) = Except.ok fi) :
    g.isUpToDate branchArg =
      Except.ok (repo.is_ancestor fi.commit cc,
        { g with fetchBranchInfo := some fi }, [Eff.fetch]) := by
  rcases hbn with h | ⟨h1, h2⟩
  · subst h
    simp [GitUtils.isUpToDate, hrepo, hh, hrem, hf]
  · subst h1
    simp [GitUtils.isUpToDate, GitUtils.getCurrentBranch, hrepo, h2, hh, hrem, hf]

/-- C1: for a loaded repository with a configured remote and a branch name
that resolves (defaulting to the active branch when the argument is unset),
isUpToDate returns true iff the commit fetched for that branch from the
remote is an ancestor of the local head commit of that branch; in
particular, on a well-formed commit graph, when the remote commit is a
strict descendant of the local commit the returned value is false. -/
theorem c1_isUpToDate_iff_ancestor (g : GitUtils) (repo : Repo) (rem : Remote)
    (branchArg : Option String) (bn : String) (cc : Nat) (fi : FetchInfo)
    (hrepo : g.gitRepo = some repo) (hrem : g.gitRemote = some rem)
    (hbn : branchArg = some bn ∨ (branchArg = none ∧ repo.activeBranch = bn))
    (hh : lookupHead repo.heads bn = Except.ok cc)
    (hf : lookupFetch rem.fetch (rem.name ++ "/" ++ bn) = Except.ok fi) :
    g.isUpToDate branchArg =
      Except.ok (repo.is_ancestor fi.commit cc,
        { g with fetchBranchInfo := some fi }, [Eff.fetch])
    ∧ (parentsWF repo.parents → repo.is_ancestor cc fi.commit = true →
        cc ≠ fi.commit → repo.is_ancestor fi.commit cc = false) := by
  refine ⟨isUpToDate_eq g repo rem branchArg bn cc fi hrepo hrem hbn hh hf, ?_⟩
  intro hwf h1 h2
  exact strict_descendant_not_ancestor repo hwf cc fi.commit h1 h2

/-- Concrete remote for the C1 scenario: origin has branch main at
commit 1. -/
def remA : Remote := ⟨"origin", [⟨"main", 1, 0⟩]⟩

/-- Concrete repository for the C1 scenario: local main at commit 0,
commit 1 is a strict descendant of commit 0 (parent link 1 to 0), clean
tree. -/
def repoA : Repo :=
  { heads := [("main", 0)], activeBranch := "main", dirty := false,
    parents := fun n => if n = 1 then [0] else [], remotes := [remA] }

/-- Controller state loaded on repoA with remote remA. -/
def gA : GitUtils := ⟨some repoA, some remA, none⟩

/-- The scenario commit graph is well formed. -/
theorem repoA_wf : parentsWF repoA.parents := by
  intro n p hp
  simp only [repoA] at hp
  by_cases h : n = 1
  · subst h
    simp at hp
    omega
  · simp [h] at hp

/-- Witness for C1: local main at commit 0, remote main at strict
descendant commit 1, so isUpToDate with the default branch argument
evaluates the ancestry test of 1 against 0, which is false. -/
theorem c1_isUpToDate_iff_ancestor_witness :
    gA.isUpToDate none =
      Except.ok (repoA.is_ancestor 1 0,
        { gA with fetchBranchInfo := some ⟨"origin/main", 1, 0⟩ }, [Eff.fetch])
    ∧ repoA.is_ancestor 1 0 = false := by
  have h := c1_isUpToDate_iff_ancestor gA repoA remA none "main" 0 ⟨"origin/main", 1, 0⟩
    rfl rfl (Or.inr ⟨rfl, rfl⟩) rfl rfl
  exact ⟨h.1, h.2 repoA_wf (by decide) (by decide)⟩

/-- C2 counterexample: construction on an invalid path is caught and
yields the degraded all-None state, but in that state getCurrentBranch and
isUpToDate dereference the absent repository handle and raise
AttributeError instead of failing safely, refuting the claim that every
subsequent operation returns false or empty without raising. -/
theorem c2_counterexample :
    GitUtils.init none = Except.ok ⟨none, none, none⟩
    ∧ GitUtils.getCurrentBranch ⟨none, none, none⟩ = Except.error GitErr.attributeError
    ∧ GitUtils.isUpToDate ⟨none, none, none⟩ none = Except.error GitErr.attributeError :=
  ⟨rfl, rfl, rfl⟩

/-- C2 amended: failed construction is caught and leaves the degraded
state; there listBranch returns the empty sequence, safeCheck, update and
checkout return false without raising and without effects, while
getCurrentBranch and isUpToDate raise AttributeError because they
dereference the absent repository handle without a guard. -/
theorem c2_degraded_behavior (g : GitUtils) (b : String) (br : Option String)
    (hrepo : g.gitRepo = none) (hrem : g.gitRemote = none) :
    GitUtils.init none = Except.ok ⟨none, none, none⟩
    ∧ g.listBranch = Except.ok ([], g, [])
    ∧ g.safeCheck = false
    ∧ g.update = Except.ok (false, g, [])
    ∧ g.checkout b = Except.ok (false, g, [])
    ∧ g.getCurrentBranch = Except.error GitErr.attributeError
    ∧ g.isUpToDate br = Except.error GitErr.attributeError := by
  have hs : g.safeCheck = false := by simp [GitUtils.safeCheck, hrepo]
  refine ⟨rfl, ?_, hs, ?_, ?_, ?_, ?_⟩
  · simp [GitUtils.listBranch, hrem]
  · simp [GitUtils.update, hs]
  · simp [GitUtils.checkout, hs]
  · simp [GitUtils.getCurrentBranch, hrepo]
  · cases br <;> simp [GitUtils.isUpToDate, GitUtils.getCurrentBranch, hrepo]

/-- Witness for C2 amended: the degraded state itself, with a concrete
branch argument. -/
theorem c2_degraded_behavior_witness :
    GitUtils.init none = Except.ok ⟨none, none, none⟩
    ∧ GitUtils.listBranch ⟨none, none, none⟩ = Except.ok ([], ⟨none, none, none⟩, [])
    ∧ GitUtils.safeCheck ⟨none, none, none⟩ = false
    ∧ GitUtils.update ⟨none, none, none⟩ = Except.ok (false, ⟨none, none, none⟩, [])
    ∧ GitUtils.checkout ⟨none, none, none⟩ "other" =
        Except.ok (false, ⟨none, none, none⟩, [])
    ∧ GitUtils.getCurrentBranch ⟨none, none, none⟩ = Except.error GitErr.attributeError
    ∧ GitUtils.isUpToDate ⟨none, none, none⟩ none = Except.error GitErr.attributeError :=
  c2_degraded_behavior ⟨none, none, none⟩ "other" none rfl rfl

/-- Concrete repository with no remotes: local main at commit 0, clean
tree. -/
def repoNoRem : Repo :=
  { heads := [("main", 0)], activeBranch := "main", dirty := false,
    parents := fun _ => [], remotes := [] }

/-- Controller state loaded on repoNoRem, hence without a remote handle. -/
def gNoRem : GitUtils := ⟨some repoNoRem, none, none⟩

/-- C3 counterexample: on a loaded repository with no remotes, listBranch
does return the empty sequence without network access, but isUpToDate and
update (on the clean tree) raise AttributeError by dereferencing the absent
remote handle, refuting the claim that both return false. -/
theorem c3_counterexample :
    GitUtils.init (some repoNoRem) = Except.ok gNoRem
    ∧ gNoRem.listBranch = Except.ok ([], gNoRem, [])
    ∧ gNoRem.isUpToDate none = Except.error GitErr.attributeError
    ∧ gNoRem.update = Except.error GitErr.attributeError :=
  ⟨rfl, rfl, rfl, rfl⟩

/-- C3 amended: with no remotes configured, listBranch returns the empty
sequence without network access and without raising; but isUpToDate raises
AttributeError on the absent remote handle, and update, whose up-to-date
check runs before its own remote guard, propagates that AttributeError
whenever the tree is clean and returns false only when the tree is dirty. -/
theorem c3_no_remote_behavior (g : GitUtils) (repo : Repo) (c : Nat)
    (hrepo : g.gitRepo = some repo) (hrem : g.gitRemote = none)
    (hh : lookupHead repo.heads repo.activeBranch = Except.ok c) :
    g.listBranch = Except.ok ([], g, [])
    ∧ g.isUpToDate none = Except.error GitErr.attributeError
    ∧ (repo.dirty = false → g.update = Except.error GitErr.attributeError)
    ∧ (repo.dirty = true → g.update = Except.ok (false, g, [])) := by
  have hup : g.isUpToDate none = Except.error GitErr.attributeError := by
    simp [GitUtils.isUpToDate, GitUtils.getCurrentBranch, hrepo, hh, hrem]
  refine ⟨?_, hup, ?_, ?_⟩
  · simp [GitUtils.listBranch, hrem]
  · intro hclean
    simp [GitUtils.update, GitUtils.safeCheck, hrepo, hclean, hup]
  · intro hdirty
    simp [GitUtils.update, GitUtils.safeCheck, hrepo, hdirty]

/-- Witness for C3 amended: the concrete remoteless repository with a
clean tree. -/
theorem c3_no_remote_behavior_witness :
    gNoRem.listBranch = Except.ok ([], gNoRem, [])
    ∧ gNoRem.isUpToDate none = Except.error GitErr.attributeError
    ∧ (repoNoRem.dirty = false → gNoRem.update = Except.error GitErr.attributeError)
    ∧ (repoNoRem.dirty = true → gNoRem.update = Except.ok (false, gNoRem, [])) :=
  c3_no_remote_behavior gNoRem repoNoRem 0 rfl rfl rfl

/-- C10: with no repository handle loaded, safeCheck returns false without
inspecting any working tree, and update and checkout, whose first action is
the safety check, return false with the state unchanged, no effects and no
exception, never reaching the code that dereferences the handles. -/
theorem c10_degraded_guards (g : GitUtils) (b : String) (hrepo : g.gitRepo = none) :
    g.safeCheck = false
    ∧ g.update = Except.ok (false, g, [])
    ∧ g.checkout b = Except.ok (false, g, []) := by
  have hs : g.safeCheck = false := by simp [GitUtils.safeCheck, hrepo]
  exact ⟨hs, by simp [GitUtils.update, hs], by simp [GitUtils.checkout, hs]⟩

/-- Witness for C10: the degraded state reached by a failed construction,
with a concrete branch argument for checkout. -/
theorem c10_degraded_guards_witness :
    GitUtils.safeCheck ⟨none, none, some ⟨"origin/main", 7, 0⟩⟩ = false
    ∧ GitUtils.update ⟨none, none, some ⟨"origin/main", 7, 0⟩⟩ =
        Except.ok (false, ⟨none, none, some ⟨"origin/main", 7, 0⟩⟩, [])
    ∧ GitUtils.checkout ⟨none, none, some ⟨"origin/main", 7, 0⟩⟩ "main" =
        Except.ok (false, ⟨none, none, some ⟨"origin/main", 7, 0⟩⟩, []) :=
  c10_degraded_guards ⟨none, none, some ⟨"origin/main", 7, 0⟩⟩ "main" rfl

/-- C4: for a loaded repository with a remote, a present head for the
active branch and a present fetch entry, update returns false with the
state fully unchanged and no effects when the safety check fails; when the
branch is already up to date it returns false after only the fetch of the
check, leaving the repository handle untouched and performing no pull; and
otherwise it performs exactly one pull of the current branch via the remote
and returns true. -/
theorem c4_update_behavior (g : GitUtils) (repo : Repo) (rem : Remote)
    (cc : Nat) (fi : FetchInfo)
    (hrepo : g.gitRepo = some repo) (hrem : g.gitRemote = some rem)
    (hh : lookupHead repo.heads repo.activeBranch = Except.ok cc)
    (hf : lookupFetch rem.fetch (rem.name ++ "/" ++ repo.activeBranch) = Except.ok fi) :
    (g.safeCheck = false → g.update = Except.ok (false, g, []))
    ∧ (g.safeCheck = true → repo.is_ancestor fi.commit cc = true →
        g.update = Except.ok (false, { g with fetchBranchInfo := some fi }, [Eff.fetch]))
    ∧ (g.safeCheck = true → repo.is_ancestor fi.commit cc = false →
        g.update = Except.ok (true,
          { g with gitRepo := some (rem.pullInto repo), fetchBranchInfo := some fi },
          [Eff.fetch, Eff.pull])
        ∧ List.count Eff.pull [Eff.fetch, Eff.pull] = 1) := by
  have hu := isUpToDate_eq g repo rem none repo.activeBranch cc fi hrepo hrem
    (Or.inr ⟨rfl, rfl⟩) hh hf
  refine ⟨?_, ?_, ?_⟩
  · intro hsc
    simp [GitUtils.update, hsc]
  · intro hsc hanc
    simp [GitUtils.update, hsc, hu, hanc]
  · intro hsc hanc
    refine ⟨?_, by decide⟩
    simp [GitUtils.update, hsc, hu, hanc, hrem, hrepo]

/-- Witness for C4: on the clean scenario state gA the branch is behind the
remote, so update performs exactly one pull and returns true. -/
theorem c4_update_behavior_witness :
    gA.update = Except.ok (true,
      { gA with gitRepo := some (remA.pullInto repoA),
                fetchBranchInfo := some ⟨"origin/main", 1, 0⟩ },
      [Eff.fetch, Eff.pull])
    ∧ List.count Eff.pull [Eff.fetch, Eff.pull] = 1 :=
  (c4_update_behavior gA repoA remA 0 ⟨"origin/main", 1, 0⟩ rfl rfl rfl rfl).2.2
    rfl (by decide)

/-- C5: for a loaded repository, safeCheck is exactly the negation of the
dirty bit of the working tree: false whenever there is any pending
uncommitted change, true on a clean tree.  The embedding of safeCheck is a
pure function of the state, so checking mutates nothing. -/
theorem c5_safeCheck_dirty (g : GitUtils) (repo : Repo) (hrepo : g.gitRepo = some repo) :
    g.safeCheck = !repo.dirty
    ∧ (repo.dirty = true → g.safeCheck = false)
    ∧ (repo.dirty = false → g.safeCheck = true) := by
  have h : g.safeCheck = !repo.dirty := by simp [GitUtils.safeCheck, hrepo]
  exact ⟨h, fun hd => by simp [h, hd], fun hd => by simp [h, hd]⟩

/-- Concrete repository with a dirty working tree. -/
def repoDirty : Repo :=
  { heads := [("main", 0)], activeBranch := "main", dirty := true,
    parents := fun _ => [], remotes := [] }

/-- Controller state loaded on the dirty repository. -/
def gDirty : GitUtils := ⟨some repoDirty, none, none⟩

/-- Witness for C5: on the dirty repository safeCheck returns false. -/
theorem c5_safeCheck_dirty_witness : gDirty.safeCheck = false :=
  (c5_safeCheck_dirty gDirty repoDirty rfl).2.1 rfl

/-- C6: for a loaded repository, checkout of the currently checked-out
branch returns false with the state unchanged and no filesystem effect, and
checkout of any branch returns false with the state unchanged whenever the
working tree is dirty. -/
theorem c6_checkout_guard (g : GitUtils) (repo : Repo) (b : String)
    (hrepo : g.gitRepo = some repo) :
    (b = repo.activeBranch → g.checkout b = Except.ok (false, g, []))
    ∧ (repo.dirty = true → g.checkout b = Except.ok (false, g, [])) := by
  constructor
  · intro hb
    cases hsc : g.safeCheck with
    | false => simp [GitUtils.checkout, hsc]
    | true => simp [GitUtils.checkout, hsc, GitUtils.getCurrentBranch, hrepo, hb]
  · intro hd
    simp [GitUtils.checkout, GitUtils.safeCheck, hrepo, hd]

/-- Witness for C6: checking out main while main is the current branch of
the clean scenario repository returns false and leaves everything as it
was. -/
theorem c6_checkout_guard_witness : gA.checkout "main" = Except.ok (false, gA, []) :=
  (c6_checkout_guard gA repoA "main" rfl).1 rfl

/-- Concrete remote whose main tip equals the local main commit. -/
def remB : Remote := ⟨"origin", [⟨"main", 0, 0⟩]⟩

/-- Concrete repository already up to date with remB: local main at
commit 0, clean tree. -/
def repoB : Repo :=
  { heads := [("main", 0)], activeBranch := "main", dirty := false,
    parents := fun _ => [], remotes := [remB] }

/-- Controller state loaded on repoB with remote remB. -/
def gB : GitUtils := ⟨some repoB, some remB, none⟩

/-- C8: when the local branch is already up to date (the fetched remote
commit is an ancestor of the local head) on a clean tree, update returns
false after only the fetch of its check, performing zero pulls, and calling
update again on the resulting state returns false again with the state now
a fixed point; so two calls in a row perform at most one pull (here none)
and every subsequent call returns false. -/
theorem c8_update_idempotent (g : GitUtils) (repo : Repo) (rem : Remote)
    (cc : Nat) (fi : FetchInfo)
    (hrepo : g.gitRepo = some repo) (hrem : g.gitRemote = some rem)
    (hh : lookupHead repo.heads repo.activeBranch = Except.ok cc)
    (hf : lookupFetch rem.fetch (rem.name ++ "/" ++ repo.activeBranch) = Except.ok fi)
    (hclean : repo.dirty = false)
    (hutd : repo.is_ancestor fi.commit cc = true) :
    g.update = Except.ok (false, { g with fetchBranchInfo := some fi }, [Eff.fetch])
    ∧ GitUtils.update { g with fetchBranchInfo := some fi } =
        Except.ok (false, { g with fetchBranchInfo := some fi }, [Eff.fetch])
    ∧ List.count Eff.pull [Eff.fetch] = 0 := by
  have hsc : g.safeCheck = true := by simp [GitUtils.safeCheck, hrepo, hclean]
  have hu := isUpToDate_eq g repo rem none repo.activeBranch cc fi hrepo hrem
    (Or.inr ⟨rfl, rfl⟩) hh hf
  have hrepo2 : ({ g with fetchBranchInfo := some fi } : GitUtils).gitRepo = some repo := hrepo
  have hrem2 : ({ g with fetchBranchInfo := some fi } : GitUtils).gitRemote = some rem := hrem
  have hsc2 : ({ g with fetchBranchInfo := some fi } : GitUtils).safeCheck = true := by
    simp [GitUtils.safeCheck, hrepo, hclean]
  have hu2 := isUpToDate_eq { g with fetchBranchInfo := some fi } repo rem none
    repo.activeBranch cc fi hrepo2 hrem2 (Or.inr ⟨rfl, rfl⟩) hh hf
  refine ⟨?_, ?_, by decide⟩
  · simp [GitUtils.update, hsc, hu, hutd]
  · simp [GitUtils.update, hsc2, hu2, hutd]

/-- Witness for C8: local main and remote main both at commit 0, clean
tree; both the first and the second update call return false with no
pull. -/
theorem c8_update_idempotent_witness :
    gB.update = Except.ok (false,
      { gB with fetchBranchInfo := some ⟨"origin/main", 0, 0⟩ }, [Eff.fetch])
    ∧ GitUtils.update { gB with fetchBranchInfo := some ⟨"origin/main", 0, 0⟩ } =
        Except.ok (false,
          { gB with fetchBranchInfo := some ⟨"origin/main", 0, 0⟩ }, [Eff.fetch])
    ∧ List.count Eff.pull [Eff.fetch] = 0 :=
  c8_update_idempotent gB repoB remB 0 ⟨"origin/main", 0, 0⟩ rfl rfl rfl rfl rfl (by decide)

/-- Concrete remote with a branch whose name contains a slash. -/
def remSlash : Remote := ⟨"origin", [⟨"feature/x", 5, 0⟩]⟩

/-- Concrete repository configured with remSlash. -/
def repoSlash : Repo :=
  { heads := [("main", 0)], activeBranch := "main", dirty := false,
    parents := fun _ => [], remotes := [remSlash] }

/-- Controller state loaded on repoSlash with remote remSlash. -/
def gSlash : GitUtils := ⟨some repoSlash, some remSlash, none⟩

/-- C7 counterexample: for the remote ref origin/feature/x the returned
element is feature, not the full branch name feature/x, because the code
keeps only the component at index 1 of the slash-split ref name. -/
theorem c7_counterexample :
    gSlash.listBranch = Except.ok (["feature"], gSlash, [Eff.fetch])
    ∧ ("feature" : String) ≠ "feature/x" :=
  ⟨rfl, by decide⟩

/-- Splitting every fetched ref name recovers exactly the branch names
when, for each branch, the component at index 1 of the slash-split ref name
is the whole branch name. -/
theorem splitAll_map_ok (nm : String) (bs : List RemoteBranch)
    (h : ∀ b ∈ bs, (pySplit '/' (nm ++ "/" ++ b.name))[1]? = some b.name) :
    splitAll (bs.map (fun b => ⟨nm ++ "/" ++ b.name, b.commit, b.flags⟩)) =
      Except.ok (bs.map (fun b => b.name)) := by
  induction bs with
  | nil => rfl
  | cons b rest ih =>
      have hb := h b (by simp)
      have hr := ih (fun x hx => h x (List.mem_cons_of_mem b hx))
      simp [splitAll, splitSecond, hb, hr]

/-- C7 amended: listBranch returns, in order, the component at index 1 of
each slash-split fetched ref name; with the remote named origin this equals
the full branch name exactly for branch names without a slash, and
truncates a branch name containing a slash to its first segment.  Under the
hypothesis that index 1 of each split ref name is the whole branch name
(true whenever the branch name has no slash), the ordered branch names are
returned exactly. -/
theorem c7_listBranch_amended (g : GitUtils) (rem : Remote)
    (hrem : g.gitRemote = some rem)
    (hnames : ∀ b ∈ rem.branches,
      (pySplit '/' (rem.name ++ "/" ++ b.name))[1]? = some b.name) :
    g.listBranch = Except.ok (rem.branches.map (fun b => b.name), g, [Eff.fetch]) := by
  have hs := splitAll_map_ok rem.name rem.branches hnames
  simp [GitUtils.listBranch, hrem, Remote.fetch, hs]

/-- Witness for C7 amended: the scenario remote has the slash-free branch
main, which is returned verbatim. -/
theorem c7_listBranch_amended_witness :
    gA.listBranch = Except.ok (remA.branches.map (fun b => b.name), gA, [Eff.fetch]) :=
  c7_listBranch_amended gA remA rfl (by decide)

/-- The up-to-date check never reads the stored fetch info: its outcome,
including the resulting state, is the same from any previously stored
value, because the field is overwritten by the fresh fetch before being
read. -/
theorem isUpToDate_fbi (gr : Option Repo) (gm : Option Remote)
    (fb gf : Option FetchInfo) (br : Option String) :
    GitUtils.isUpToDate ⟨gr, gm, fb⟩ br = GitUtils.isUpToDate ⟨gr, gm, gf⟩ br := by
  cases br <;> cases gr <;> cases gm <;> rfl

/-- C9: the stored fetch info is transient: no operation observes a
previously stored value.  Every returned value and effect list, and for the
up-to-date check even the resulting state, is unchanged when the stored
fetch info field is replaced arbitrarily; so each operation depends only on
the repository handle, the remote handle and its own arguments, and the
up-to-date check recomputes its fetch data afresh. -/
theorem c9_fetchinfo_transient (g : GitUtils) (fb : Option FetchInfo)
    (br : Option String) (b : String) :
    GitUtils.getCurrentBranch { g with fetchBranchInfo := fb } = g.getCurrentBranch
    ∧ GitUtils.safeCheck { g with fetchBranchInfo := fb } = g.safeCheck
    ∧ dropState (GitUtils.listBranch { g with fetchBranchInfo := fb }) =
        dropState g.listBranch
    ∧ GitUtils.isUpToDate { g with fetchBranchInfo := fb } br = g.isUpToDate br
    ∧ dropState (GitUtils.update { g with fetchBranchInfo := fb }) = dropState g.update
    ∧ dropState (GitUtils.checkout { g with fetchBranchInfo := fb } b) =
        dropState (g.checkout b) := by
  obtain ⟨gr, gm, gf⟩ := g
  refine ⟨rfl, rfl, ?_, isUpToDate_fbi gr gm fb gf br, ?_, ?_⟩
  · cases gm with
    | none => rfl
    | some rem =>
        cases h : splitAll rem.fetch with
        | error e => simp [GitUtils.listBranch, h, dropState]
        | ok res => simp [GitUtils.listBranch, h, dropState]
  · cases gr with
    | none => rfl
    | some repo =>
        obtain ⟨hs, ab, d, par, rs⟩ := repo
        cases d with
        | true => rfl
        | false =>
            simp only [GitUtils.update]
            rw [isUpToDate_fbi (some ⟨hs, ab, false, par, rs⟩) gm fb gf none]
            simp [GitUtils.safeCheck]
  · cases gr with
    | none => rfl
    | some repo =>
        obtain ⟨hs, ab, d, par, rs⟩ := repo
        cases d with
        | true => rfl
        | false =>
            cases hb : b == ab with
            | true =>
                simp [GitUtils.checkout, GitUtils.getCurrentBranch, GitUtils.safeCheck,
                  hb, dropState]
            | false =>
                cases hfind : List.find? (fun p => p.1 == b) hs with
                | none =>
                    simp [GitUtils.checkout, GitUtils.getCurrentBranch, GitUtils.safeCheck,
                      hb, hfind, dropState]
                | some q =>
                    simp [GitUtils.checkout, GitUtils.getCurrentBranch, GitUtils.safeCheck,
                      hb, hfind, dropState]
